import Mathlib

/-!
Shallow embedding of `piep.c`, a program that plays an infinite sine tone
through ALSA.  The embedding models:

* the frequency quantization of the clip synthesizer (piep.c lines 126-128),
  over exact rational arithmetic;
* the sine fill of the clip (piep.c lines 134-137), over exact real
  arithmetic: the C `(sample)` cast truncates toward zero;
* the playback loop with its underrun / suspend / busy recovery paths
  (piep.c lines 139-167), driven by a script of backend results;
* the option-parsing phase and the exit-status discipline of `main`
  (piep.c lines 50-94).

Machine floats of the C source are modelled by exact arithmetic (ℚ for the
frequency computations, ℝ for the sine fill); `roundf` is modelled as
round-half-away-from-zero, which is its C semantics.
-/

namespace Piep

/-- C `roundf`: round to nearest, ties away from zero, modelled on ℚ. -/
def roundAway (x : ℚ) : ℤ :=
  if 0 ≤ x then ⌊x + 1 / 2⌋ else -⌊-x + 1 / 2⌋

/-- piep.c line 126: `clip_time_s = (float) clip_size_frames / (float) rate_hz`. -/
def clipTime (periodSize rate : ℕ) : ℚ :=
  (periodSize : ℚ) / (rate : ℚ)

/-- piep.c line 127: `waves_per_clip = frequency_hz * clip_time_s`. -/
def wavesPerClip (f : ℚ) (periodSize rate : ℕ) : ℚ :=
  f * clipTime periodSize rate

/-- piep.c line 128: `frequency_hz = clip_time_s * roundf(waves_per_clip)`.
Note the source MULTIPLIES the rounded cycle count by the clip duration. -/
def effFreq (f : ℚ) (periodSize rate : ℕ) : ℚ :=
  clipTime periodSize rate * (roundAway (wavesPerClip f periodSize rate) : ℚ)

/-- The spec's formula (§4.2 step 4), for comparison with `effFreq`:
`effective_frequency = round(cycles) / clip_duration`. -/
def effFreqSpecFormula (f : ℚ) (periodSize rate : ℕ) : ℚ :=
  (roundAway (wavesPerClip f periodSize rate) : ℚ) / clipTime periodSize rate

end Piep

namespace Piep

/-- Claim C1: after rounding the fractional cycle count, the effective
frequency used to fill the clip equals `round(cycles) / clip_duration` for
every requested frequency and every profile with positive period size and
rate.  The code instead computes `clip_duration * round(cycles)`
(piep.c line 128): at requested frequency 2 Hz, period size 1 frame,
rate 2 Hz (clip duration 1/2 s) the code uses 1/2 Hz while the claimed
formula gives 2 Hz. -/
theorem C1_effective_frequency_formula_bug :
    effFreq 2 1 2 = 1 / 2 ∧ effFreqSpecFormula 2 1 2 = 2 ∧
      effFreq 2 1 2 ≠ effFreqSpecFormula 2 1 2 := by
  refine ⟨?_, ?_, ?_⟩ <;> norm_num [effFreq, effFreqSpecFormula, wavesPerClip, clipTime, roundAway]

/-- Claim C2: the effective frequency is claimed to deviate from the request
by at most `0.5 / clip_duration`.  With the code's multiplication
(piep.c line 128) this fails: at requested frequency 1 Hz, period size 2,
rate 1 (clip duration 2 s) the code's effective frequency is 4 Hz, a
deviation of 3 Hz, while the claimed bound is 1/4 Hz. -/
theorem C2_frequency_deviation_bug :
    effFreq 1 2 1 = 4 ∧ |effFreq 1 2 1 - 1| = 3 ∧
      (1 / 2 : ℚ) / clipTime 2 1 = 1 / 4 ∧
      ¬ |effFreq 1 2 1 - 1| ≤ (1 / 2 : ℚ) / clipTime 2 1 := by
  refine ⟨?_, ?_, ?_, ?_⟩ <;>
    norm_num [effFreq, wavesPerClip, clipTime, roundAway, abs_of_nonneg]

/-- Claim C3: the number of cycles of the effective frequency spanning one
clip is claimed to be an exact integer, so that the clip tiles seamlessly.
With the code's effective frequency (piep.c line 128) this fails: at
requested frequency 2 Hz, period size 1, rate 2, the effective frequency is
1/2 Hz and the cycle count `effFreq * clipTime` is 1/4, not an integer. -/
theorem C3_cycles_not_integer_bug :
    effFreq 2 1 2 * clipTime 1 2 = 1 / 4 ∧
      ¬ ∃ n : ℤ, effFreq 2 1 2 * clipTime 1 2 = (n : ℚ) := by
  constructor
  · norm_num [effFreq, wavesPerClip, clipTime, roundAway]
  · rintro ⟨n, hn⟩
    have h4 : effFreq 2 1 2 * clipTime 1 2 = 1 / 4 := by
      norm_num [effFreq, wavesPerClip, clipTime, roundAway]
    rw [h4] at hn
    have hden : ((1 : ℚ) / 4).den = 1 := by rw [hn]; exact Rat.den_intCast n
    norm_num at hden

end Piep

namespace Piep

/-- The C cast `(sample)(...)` from a real value to an integer: truncation
toward zero (piep.c line 136). -/
noncomputable def truncTowardZero (x : ℝ) : ℤ :=
  if 0 ≤ x then ⌊x⌋ else ⌈x⌉

/-- piep.c lines 135-136: one sample of the clip,
`(sample) (sinf((float) i / (float) rate_hz * frequency_hz * 2.0 * PI) * 0x7FFF)`,
where `frequency_hz` already holds the effective frequency. -/
noncomputable def clipSample (f : ℚ) (rate : ℕ) (i : ℕ) : ℤ :=
  truncTowardZero (Real.sin ((i : ℝ) / (rate : ℝ) * (f : ℝ) * 2 * Real.pi) * 32767)

/-- piep.c lines 126-137: the whole synthesis — quantize the frequency,
then fill one clip of `periodSize` samples. -/
noncomputable def synthClip (f : ℚ) (periodSize rate : ℕ) : List ℤ :=
  (List.range periodSize).map (clipSample (effFreq f periodSize rate) rate)

theorem truncTowardZero_bounds {x : ℝ} {B : ℤ} (hB : 0 ≤ B)
    (h1 : -(B : ℝ) ≤ x) (h2 : x ≤ (B : ℝ)) :
    -B ≤ truncTowardZero x ∧ truncTowardZero x ≤ B := by
  unfold truncTowardZero
  split
  · constructor
    · exact le_trans (neg_nonpos.2 hB) (Int.floor_nonneg.2 (by assumption))
    · calc ⌊x⌋ ≤ ⌊(B : ℝ)⌋ := Int.floor_le_floor h2
        _ = B := Int.floor_intCast B
  · have hx : x < 0 := not_le.mp (by assumption)
    constructor
    · calc -B = ⌈((-B : ℤ) : ℝ)⌉ := (Int.ceil_intCast _).symm
        _ ≤ ⌈x⌉ := Int.ceil_le_ceil (by push_cast; linarith)
    · have hc : ⌈x⌉ ≤ 0 := Int.ceil_le.mpr (by exact_mod_cast hx.le)
      exact le_trans hc hB

end Piep

namespace Piep

/-- Claim C4: every sample of the synthesized clip lies in
`[-32767, 32767]`, for every requested frequency, period size and rate; in
particular no sample equals `-32768`. -/
theorem C4_sample_range (f : ℚ) (ps rate : ℕ) (s : ℤ)
    (hs : s ∈ synthClip f ps rate) :
    -32767 ≤ s ∧ s ≤ 32767 ∧ s ≠ -32768 := by
  simp only [synthClip, List.mem_map] at hs
  obtain ⟨i, -, rfl⟩ := hs
  unfold clipSample
  set θ : ℝ := (i : ℝ) / (rate : ℝ) * ((effFreq f ps rate : ℚ) : ℝ) * 2 * Real.pi
  have h1 : -((32767 : ℤ) : ℝ) ≤ Real.sin θ * 32767 := by
    have := Real.neg_one_le_sin θ; push_cast; nlinarith
  have h2 : Real.sin θ * 32767 ≤ ((32767 : ℤ) : ℝ) := by
    have := Real.sin_le_one θ; push_cast; nlinarith
  have hb := truncTowardZero_bounds (by norm_num) h1 h2
  exact ⟨hb.1, hb.2, by omega⟩

/-- Witness for C4 at concrete input: the single sample of the clip for
frequency 0, period size 1, rate 1 is 0, which lies in range. -/
theorem C4_sample_range_witness :
    (0 : ℤ) ∈ synthClip 0 1 1 ∧
      (-32767 ≤ (0 : ℤ) ∧ (0 : ℤ) ≤ 32767 ∧ (0 : ℤ) ≠ -32768) := by
  have hmem : (0 : ℤ) ∈ synthClip 0 1 1 := by
    simp [synthClip, clipSample, effFreq, wavesPerClip, clipTime, roundAway,
      truncTowardZero, List.range_succ]
  exact ⟨hmem, C4_sample_range 0 1 1 0 hmem⟩

/-- Claim C6: a requested frequency of 0 Hz rounds the cycle count to 0 and
produces an all-zero (silent) clip, for every period size and rate; the
synthesis is total (no error path). -/
theorem C6_zero_frequency_silence (ps rate : ℕ) :
    roundAway (wavesPerClip 0 ps rate) = 0 ∧
      effFreq 0 ps rate = 0 ∧
      synthClip 0 ps rate = List.replicate ps 0 := by
  have hr : roundAway (wavesPerClip 0 ps rate) = 0 := by
    norm_num [roundAway, wavesPerClip]
  have he : effFreq 0 ps rate = 0 := by
    simp [effFreq, hr]
  refine ⟨hr, he, ?_⟩
  rw [synthClip, he, List.eq_replicate_iff]
  refine ⟨by simp, ?_⟩
  intro b hb
  simp only [List.mem_map] at hb
  obtain ⟨i, -, rfl⟩ := hb
  simp [clipSample, truncTowardZero]

end Piep

namespace Piep

/-- Claim C5 (as amended): every sample index `i < periodSize` of the clip
equals the TRUNCATION TOWARD ZERO (the C `(sample)` cast, piep.c line 136)
of `sin(2π · effective_frequency · i / rate) · 32767` — not its rounding to
the nearest integer. -/
theorem C5_samples_truncated_sine (f : ℚ) (ps rate i : ℕ) (hi : i < ps) :
    (synthClip f ps rate).getD i 0 =
      truncTowardZero
        (Real.sin (2 * Real.pi * ((effFreq f ps rate : ℚ) : ℝ) * i / rate) * 32767) := by
  have hmem : (List.range ps)[i]? = some i := by
    simp [List.getElem?_range, hi]
  simp only [synthClip, List.getD_eq_getElem?_getD, List.getElem?_map, hmem,
    Option.map_some', Option.getD_some]
  have harg : (i : ℝ) / (rate : ℝ) * ((effFreq f ps rate : ℚ) : ℝ) * 2 * Real.pi
      = 2 * Real.pi * ((effFreq f ps rate : ℚ) : ℝ) * i / rate := by ring
  simp only [clipSample]
  rw [harg]

/-- Witness for C5 (amended) at concrete input: frequency 0, period size 1,
rate 1, index 0. -/
theorem C5_samples_truncated_sine_witness :
    (0 : ℕ) < 1 ∧
      (synthClip 0 1 1).getD 0 0 =
        truncTowardZero
          (Real.sin (2 * Real.pi * ((effFreq 0 1 1 : ℚ) : ℝ) * (0 : ℕ) / (1 : ℕ)) * 32767) :=
  ⟨Nat.zero_lt_one, C5_samples_truncated_sine 0 1 1 0 Nat.zero_lt_one⟩

/-- Counterexample to claim C5 as stated: at requested frequency 1 Hz with
period size 12 and rate 12 (so the effective frequency is 1 Hz), sample
index 1 is `trunc(sin(π/6)·32767) = trunc(16383.5) = 16383`, while the
claimed formula `round(sin(2π·f'·i/rate)·32767)` gives 16384. -/
theorem C5_round_counterexample :
    (synthClip 1 12 12).getD 1 0 = 16383 ∧
      round (Real.sin (2 * Real.pi * ((effFreq 1 12 12 : ℚ) : ℝ) * 1 / 12) * 32767) = 16384 ∧
      (synthClip 1 12 12).getD 1 0 ≠
        round (Real.sin (2 * Real.pi * ((effFreq 1 12 12 : ℚ) : ℝ) * 1 / 12) * 32767) := by
  have heff : effFreq 1 12 12 = 1 := by
    norm_num [effFreq, wavesPerClip, clipTime, roundAway]
  have hsin2 : Real.sin (2 * Real.pi * ((effFreq 1 12 12 : ℚ) : ℝ) * 1 / 12) = 1 / 2 := by
    rw [heff]
    have harg : 2 * Real.pi * ((1 : ℚ) : ℝ) * 1 / 12 = Real.pi / 6 := by
      push_cast; ring
    rw [harg, Real.sin_pi_div_six]
  have hgetD : (synthClip 1 12 12).getD 1 0 = clipSample (effFreq 1 12 12) 12 1 := by
    have hmem : (List.range 12)[1]? = some 1 := by
      simp [List.getElem?_range]
    simp only [synthClip, List.getD_eq_getElem?_getD, List.getElem?_map, hmem,
      Option.map_some', Option.getD_some]
  have hsample : clipSample (effFreq 1 12 12) 12 1 = 16383 := by
    rw [heff]
    simp only [clipSample]
    have harg : ((1 : ℕ) : ℝ) / ((12 : ℕ) : ℝ) * ((1 : ℚ) : ℝ) * 2 * Real.pi
        = Real.pi / 6 := by push_cast; ring
    rw [harg, Real.sin_pi_div_six, truncTowardZero, if_pos (by norm_num)]
    rw [Int.floor_eq_iff]
    norm_num
  have hround : round (Real.sin (2 * Real.pi * ((effFreq 1 12 12 : ℚ) : ℝ) * 1 / 12) * 32767)
      = 16384 := by
    rw [hsin2, round_eq]
    rw [show (1 / 2 : ℝ) * 32767 + 1 / 2 = ((16384 : ℤ) : ℝ) by norm_num]
    exact Int.floor_intCast 16384
  refine ⟨hgetD.trans hsample, hround, ?_⟩
  rw [hgetD.trans hsample, hround]
  norm_num

end Piep

namespace Piep

/-- The result of hardware parameter negotiation (piep.c lines 100-119):
the rate as written back through `snd_pcm_hw_params_set_rate_near` and the
period size as read back through `snd_pcm_hw_params_get_period_size`. -/
structure HWProfile where
  rate : ℕ
  periodSize : ℕ
deriving DecidableEq

/-- piep.c lines 94-137 up to the clip fill: negotiate with the (abstract,
device-chosen) backend, passing the requested rate, then synthesize the
clip from the profile the backend returned.  The negotiated values overwrite
the requested ones (`&rate_hz` is passed to the backend, and the period size
is read back, never computed). -/
noncomputable def mainSynth (negotiate : ℕ → HWProfile) (requestedRate : ℕ) (f : ℚ) :
    List ℤ :=
  synthClip f (negotiate requestedRate).periodSize (negotiate requestedRate).rate

/-- Claim C7: clip sizing and synthesis use only the values returned by the
device negotiation: two runs whose negotiations return the same profile
produce the same clip whatever the requested rates were, and the clip is a
function of the negotiated period size and rate alone. -/
theorem C7_uses_negotiated_values (n₁ n₂ : ℕ → HWProfile) (r₁ r₂ : ℕ) (f : ℚ)
    (h : n₁ r₁ = n₂ r₂) :
    mainSynth n₁ r₁ f = mainSynth n₂ r₂ f ∧
      mainSynth n₁ r₁ f = synthClip f (n₁ r₁).periodSize (n₁ r₁).rate := by
  refine ⟨?_, rfl⟩
  unfold mainSynth
  rw [h]

/-- Witness for C7 at concrete input: a backend that negotiates profile
(44100 Hz, 44100 frames) regardless of the request, queried with requested
rates 44100 and 48000. -/
theorem C7_uses_negotiated_values_witness :
    ((fun _ : ℕ => HWProfile.mk 44100 44100) 44100
        = (fun _ : ℕ => HWProfile.mk 44100 44100) 48000) ∧
      mainSynth (fun _ => HWProfile.mk 44100 44100) 44100 440
        = mainSynth (fun _ => HWProfile.mk 44100 44100) 48000 440 :=
  ⟨rfl, (C7_uses_negotiated_values (fun _ => HWProfile.mk 44100 44100)
    (fun _ => HWProfile.mk 44100 44100) 44100 48000 440 rfl).1⟩

end Piep

namespace Piep

/-- Result of one `snd_pcm_resume` call as classified by the loop
(piep.c lines 151-158): success, `-EAGAIN` ("not yet"), or any other
negative result (fatal). -/
inductive ResumeResult where
  | ok
  | notYet
  | fatalErr

/-- Result of one `snd_pcm_writei` call (piep.c lines 140-165), together
with the backend's answers to the recovery calls this write triggers:
for an underrun, whether `snd_pcm_prepare` succeeds; for a suspend, the
successive `snd_pcm_resume` results and then whether `snd_pcm_prepare`
succeeds. -/
inductive WriteResult where
  | ok
  | busy
  | underrun (prepareOk : Bool)
  | suspended (resumes : List ResumeResult) (prepareOk : Bool)
  | fatalErr

/-- Observable actions of the playback loop: a `snd_pcm_writei` of the clip
buffer, a `snd_pcm_prepare`, or a `sleep(1)`. -/
inductive Event where
  | submit (clip : List ℤ)
  | prepare
  | sleep1

/-- How the observation of the loop ended: still looping, `exit(EXIT_FAILURE)`
through ABORT, or the dead `return EXIT_SUCCESS` after the loop
(piep.c line 169, unreachable). -/
inductive LoopStatus where
  | running
  | exitedFailure
  | exitedSuccess

/-- Terminal outcome of the resume-poll sub-loop. -/
inductive ResumeOutcome where
  | resumed
  | fatalErr
  | stillPolling

/-- piep.c lines 150-161: the resume-poll sub-loop.  Returns the number of
`sleep(1)` calls made (one after each "not yet") and the terminal outcome;
an exhausted script means the loop is still polling. -/
def resumePoll : List ResumeResult → ℕ × ResumeOutcome
  | [] => (0, .stillPolling)
  | .ok :: _ => (0, .resumed)
  | .notYet :: rest => ((resumePoll rest).1 + 1, (resumePoll rest).2)
  | .fatalErr :: _ => (0, .fatalErr)

/-- piep.c lines 139-167: the playback loop, driven by a script of write
results.  It emits the observable events in order; an exhausted script means
the loop is still running.  The clip buffer is never modified: every submit
carries the same `clip`. -/
def playLoop (clip : List ℤ) : List WriteResult → List Event × LoopStatus
  | [] => ([], .running)
  | .ok :: rest =>
      (.submit clip :: (playLoop clip rest).1, (playLoop clip rest).2)
  | .busy :: rest =>
      (.submit clip :: (playLoop clip rest).1, (playLoop clip rest).2)
  | .underrun true :: rest =>
      (.submit clip :: .prepare :: (playLoop clip rest).1, (playLoop clip rest).2)
  | .underrun false :: _ =>
      ([.submit clip, .prepare], .exitedFailure)
  | .suspended rs prepOk :: rest =>
      (match resumePoll rs, prepOk with
        | (n, .resumed), true =>
            (.submit clip :: (List.replicate n .sleep1 ++ .prepare :: (playLoop clip rest).1),
              (playLoop clip rest).2)
        | (n, .resumed), false =>
            (.submit clip :: (List.replicate n .sleep1 ++ [.prepare]), .exitedFailure)
        | (n, .fatalErr), _ =>
            (.submit clip :: List.replicate n .sleep1, .exitedFailure)
        | (n, .stillPolling), _ =>
            (.submit clip :: List.replicate n .sleep1, .running))
  | .fatalErr :: _ => ([.submit clip], .exitedFailure)

theorem playLoop_never_success (clip : List ℤ) (script : List WriteResult) :
    (playLoop clip script).2 ≠ .exitedSuccess := by
  induction script with
  | nil => simp [playLoop]
  | cons w rest ih =>
    cases w with
    | ok => simpa [playLoop] using ih
    | busy => simpa [playLoop] using ih
    | underrun p =>
      cases p
      · simp [playLoop]
      · simpa [playLoop] using ih
    | suspended rs p =>
      rcases hr : resumePoll rs with ⟨n, o⟩
      cases o with
      | resumed =>
        cases p
        · simp [playLoop, hr]
        · simpa [playLoop, hr] using ih
      | fatalErr => simp [playLoop, hr]
      | stillPolling => simp [playLoop, hr]
    | fatalErr => simp [playLoop]

end Piep

namespace Piep

/-- Claim C8: a write reporting an underrun with the backend then succeeding
causes exactly one prepare and an immediate retry of the submit with the same
unmodified clip, without exiting; a write reporting would-block (busy) causes
an immediate retry with no prepare, no sleep and no exit. -/
theorem C8_underrun_and_busy_recovery (clip : List ℤ) :
    (∀ rest, playLoop clip (.underrun true :: rest)
        = (.submit clip :: .prepare :: (playLoop clip rest).1, (playLoop clip rest).2)) ∧
      playLoop clip [.underrun true, .ok]
        = ([.submit clip, .prepare, .submit clip], .running) ∧
      (∀ rest, playLoop clip (.busy :: rest)
        = (.submit clip :: (playLoop clip rest).1, (playLoop clip rest).2)) ∧
      playLoop clip [.busy, .ok] = ([.submit clip, .submit clip], .running) :=
  ⟨fun _ => rfl, rfl, fun _ => rfl, rfl⟩

/-- Claim C9: while suspended, each "not yet" resume answer causes exactly one
1-second wait before the next resume attempt, for an unbounded number of
attempts; a resume success is followed by exactly one prepare and a retry of
the submit with the loop still running (two "not yet" answers then success
give exactly two waits and one prepare); a resume failure other than
"not yet" exits with failure status. -/
theorem C9_suspend_recovery (clip : List ℤ) :
    (∀ n, resumePoll (List.replicate n .notYet ++ [.ok]) = (n, .resumed)) ∧
      (∀ n rest, playLoop clip (.suspended (List.replicate n .notYet ++ [.ok]) true :: rest)
        = (.submit clip :: (List.replicate n .sleep1 ++ .prepare :: (playLoop clip rest).1),
            (playLoop clip rest).2)) ∧
      playLoop clip [.suspended [.notYet, .notYet, .ok] true, .ok]
        = ([.submit clip, .sleep1, .sleep1, .prepare, .submit clip], .running) ∧
      playLoop clip [.suspended [.notYet, .fatalErr] true]
        = ([.submit clip, .sleep1], .exitedFailure) := by
  have hpoll : ∀ n, resumePoll (List.replicate n ResumeResult.notYet ++ [ResumeResult.ok])
      = (n, .resumed) := by
    intro n
    induction n with
    | zero => rfl
    | succ k ih => simp [List.replicate_succ, resumePoll, ih]
  refine ⟨hpoll, ?_, rfl, rfl⟩
  intro n rest
  simp [playLoop, hpoll n]

end Piep

namespace Piep

/-- piep.c lines 45-48: the configuration variables of `main` with their
defaults. -/
structure Config where
  device : String
  frequency : ℚ
  rate : ℤ
  verbose : Bool

def defaultConfig : Config :=
  { device := "default", frequency := 440, rate := 44100, verbose := false }

/-- One option token as classified by `getopt` with optstring "d:hf:r:v"
(piep.c line 51).  For `-f` and `-r`, `parses` records whether the libc
conversion (`strtod` at line 61, `strtol` at line 72) consumed a numeric
prefix of the argument; `endptr == optarg` in the source corresponds to
`parses = false`.  `unknown` is any option `getopt` rejects. -/
inductive Opt where
  | optD (s : String)
  | optF (parses : Bool) (v : ℚ)
  | optH
  | optR (parses : Bool) (v : ℤ)
  | optV
  | unknown

/-- Outcome of the option-parsing phase (piep.c lines 50-86). -/
inductive ParseResult where
  | exitSuccess
  | exitFailure
  | proceed (cfg : Config)

/-- piep.c lines 50-86: the `getopt` loop over the option tokens. -/
def parseArgs : Config → List Opt → ParseResult
  | cfg, [] => .proceed cfg
  | cfg, .optD s :: rest => parseArgs { cfg with device := s } rest
  | cfg, .optF true v :: rest => parseArgs { cfg with frequency := v } rest
  | _, .optF false _ :: _ => .exitFailure
  | _, .optH :: _ => .exitSuccess
  | cfg, .optR true v :: rest => parseArgs { cfg with rate := v } rest
  | _, .optR false _ :: _ => .exitFailure
  | cfg, .optV :: rest => parseArgs { cfg with verbose := true } rest
  | _, .unknown :: _ => .exitFailure

/-- How a run of `main` is observed to end. -/
inductive MainOutcome where
  | exit (code : ℕ) (deviceOpenAttempted : Bool)
  | playing

/-- piep.c `main` (lines 44-170): parse the options; on `proceed`, attempt
to open and configure the device (`snd_pcm_open` at line 94 and the
negotiation calls, any failure of which aborts through CHECKED — modelled
by `setupOk`), synthesize the clip from the negotiated profile, and run the
playback loop against the backend script. -/
noncomputable def runMain (opts : List Opt) (negotiate : ℕ → HWProfile)
    (setupOk : Bool) (script : List WriteResult) : MainOutcome :=
  match parseArgs defaultConfig opts with
  | .exitSuccess => .exit 0 false
  | .exitFailure => .exit 1 false
  | .proceed cfg =>
      match setupOk with
      | false => .exit 1 true
      | true =>
          match (playLoop (mainSynth negotiate cfg.rate.toNat cfg.frequency) script).2 with
          | .running => .playing
          | .exitedFailure => .exit 1 true
          | .exitedSuccess => .exit 0 true

theorem parseArgs_success_mem (opts : List Opt) :
    ∀ cfg : Config, parseArgs cfg opts = .exitSuccess → Opt.optH ∈ opts := by
  induction opts with
  | nil =>
    intro cfg h
    simp [parseArgs] at h
  | cons o rest ih =>
    intro cfg h
    cases o with
    | optD s => exact List.mem_cons_of_mem _ (ih _ h)
    | optF p v =>
      cases p with
      | false => simp [parseArgs] at h
      | true => exact List.mem_cons_of_mem _ (ih _ h)
    | optH => exact List.mem_cons_self _ _
    | optR p v =>
      cases p with
      | false => simp [parseArgs] at h
      | true => exact List.mem_cons_of_mem _ (ih _ h)
    | optV => exact List.mem_cons_of_mem _ (ih _ h)
    | unknown => simp [parseArgs] at h

end Piep

namespace Piep

/-- Claim C10: the process exits with status 0 only when `-h` was given; an
unparsable `-f` or `-r` argument, or an unknown option, exits with status 1
before any attempt to open the device; and the playback path never exits
successfully. -/
theorem C10_exit_status_discipline :
    (∀ (opts : List Opt) (negotiate : ℕ → HWProfile) (setupOk : Bool)
        (script : List WriteResult) (b : Bool),
        runMain opts negotiate setupOk script = .exit 0 b →
          b = false ∧ Opt.optH ∈ opts) ∧
      (∀ (negotiate : ℕ → HWProfile) (setupOk : Bool) (script : List WriteResult) (v : ℚ),
        runMain [.optF false v] negotiate setupOk script = .exit 1 false) ∧
      (∀ (negotiate : ℕ → HWProfile) (setupOk : Bool) (script : List WriteResult) (v : ℤ),
        runMain [.optR false v] negotiate setupOk script = .exit 1 false) ∧
      (∀ (negotiate : ℕ → HWProfile) (setupOk : Bool) (script : List WriteResult),
        runMain [.unknown] negotiate setupOk script = .exit 1 false) := by
  refine ⟨?_, fun _ _ _ _ => rfl, fun _ _ _ _ => rfl, fun _ _ _ => rfl⟩
  intro opts negotiate setupOk script b h
  unfold runMain at h
  split at h
  next hp =>
    injection h with h1 h2
    exact ⟨h2.symm, parseArgs_success_mem opts _ hp⟩
  next hp =>
    injection h with h1 h2
    exact absurd h1 one_ne_zero
  next cfg hp =>
    split at h
    next hsetup =>
      injection h with h1 h2
      exact absurd h1 one_ne_zero
    next hsetup =>
      split at h
      next hs => injection h
      next hs =>
        injection h with h1 h2
        exact absurd h1 one_ne_zero
      next hs => exact absurd hs (playLoop_never_success _ _)

/-- Witness for C10 at concrete input: running with just `-h` exits with
status 0 and no device-open attempt, and `-h` is among the options. -/
theorem C10_exit_status_discipline_witness :
    runMain [Opt.optH] (fun _ => HWProfile.mk 44100 44100) true [] = .exit 0 false ∧
      (false = false ∧ Opt.optH ∈ [Opt.optH]) := by
  have h : runMain [Opt.optH] (fun _ => HWProfile.mk 44100 44100) true []
      = .exit 0 false := rfl
  exact ⟨h, C10_exit_status_discipline.1 [Opt.optH] (fun _ => HWProfile.mk 44100 44100)
    true [] false h⟩

end Piep
